import Mathlib

/-!
Verification of `python201`'s cumulative-product transform and its
command-line adapter (src/python201/algorithms.py), shallowly embedded in
Lean 4.  Numeric values are modelled by `ℚ` (exact arithmetic standing in
for the host language's numbers).
-/

namespace Python201

/-- The body of the `for i, value in enumerate(array[1:])` loop in
`cumulative_product`: the statement `result[i+1] = result[i] * value`,
acting on the `result` list.  The pair `p` is `(i, value)` as produced by
`enumerate`. -/
def loopBody (result : List ℚ) (p : Nat × ℚ) : List ℚ :=
  result.set (p.1 + 1) (result.getD p.1 0 * p.2)

/-- Embedding of `cumulative_product` (src/python201/algorithms.py):
`result = list(array)` (a copy of the input), then the loop
`for i, value in enumerate(array[1:]): result[i+1] = result[i] * value`,
then `return result`.  The loop is a left fold of `loopBody` over
`enumerate(array[1:])`. -/
def cumulative_product (array : List ℚ) : List ℚ :=
  ((array.drop 1).enum).foldl loopBody array

/-- Embedding of `cumulative_product` that threads both local variables,
`array` and `result`, through the loop, so that (non-)mutation of the
caller's `array` is visible: each iteration leaves `array` untouched and
updates only `result`.  Returns the final values `(array, result)`. -/
def cumulative_product_vars (array : List ℚ) : List ℚ × List ℚ :=
  ((array.drop 1).enum).foldl
    (fun st p => (st.1, loopBody st.2 p)) (array, array)

/-- Numeric value of a list of decimal digit characters (most significant
first), used to model Python's `float` parsing of digit runs. -/
def digitsVal (l : List Char) : Nat :=
  l.foldl (fun acc c => 10 * acc + (c.toNat - '0'.toNat)) 0

/-- Split a character list into its maximal leading run of decimal digits
and the remainder. -/
def splitDigits : List Char → List Char × List Char
  | [] => ([], [])
  | c :: cs =>
    if c.isDigit then
      let (d, r) := splitDigits cs
      (c :: d, r)
    else ([], c :: cs)

/-- The whitespace characters Python's `str.strip` (and hence `float`)
removes from the ends of a string. -/
def pyIsSpace (c : Char) : Bool :=
  c = ' ' || c = '\t' || c = '\n' || c = '\r' || c = '\x0b' || c = '\x0c'

/-- Strip surrounding whitespace, as Python's `float` does to its string
argument before parsing it. -/
def stripChars (cs : List Char) : List Char :=
  ((cs.dropWhile pyIsSpace).reverse.dropWhile pyIsSpace).reverse

/-- Modelled from Python's built-in `float` on unsigned decimal literals:
digits with at most one decimal point and at least one digit in total;
anything else raises `ValueError`, modelled as `none`.  (Exponent,
infinity and NaN spellings are outside the inputs this development
evaluates.) -/
def parseUnsigned (cs : List Char) : Option ℚ :=
  let (ip, rest) := splitDigits cs
  match rest with
  | [] => if ip.isEmpty then none else some (digitsVal ip : ℚ)
  | '.' :: rest2 =>
    let (fp, rest3) := splitDigits rest2
    if rest3.isEmpty && !(ip.isEmpty && fp.isEmpty) then
      some ((digitsVal (ip ++ fp) : ℚ) / (10 ^ fp.length : ℚ))
    else none
  | _ => none

/-- Modelled from Python's built-in `float` on a stripped character list:
an optional sign followed by an unsigned decimal literal. -/
def parseFloatCore (cs : List Char) : Option ℚ :=
  match cs with
  | '-' :: rest => (parseUnsigned rest).map (fun q => -q)
  | '+' :: rest => parseUnsigned rest
  | rest => parseUnsigned rest

/-- `float` applied to one line of input: Python's `float` strips
surrounding whitespace (in particular the line's trailing newline) before
parsing; an unparseable line raises `ValueError`, modelled as `none`. -/
def parseFloat (s : String) : Option ℚ :=
  parseFloatCore (stripChars s.toList)

/-- Iteration over a text stream as Python iterates a file: the stream is
split into lines, each keeping its trailing newline; a final fragment
without a newline is also a line; the empty stream yields no lines. -/
def fileLinesChars : List Char → List Char → List String
  | [], acc => if acc.isEmpty then [] else [String.mk acc.reverse]
  | c :: cs, acc =>
    if c = '\n' then
      String.mk (acc.reverse ++ ['\n']) :: fileLinesChars cs []
    else fileLinesChars cs (c :: acc)

/-- The lines of an input stream, as Python file iteration yields them. -/
def fileLines (s : String) : List String :=
  fileLinesChars s.toList []

/-- Embedding of `list(map(float, cmdline.infile))` in `main`: parse every
line in order; the first unparseable line raises `ValueError`
(`could not convert string to float`), which aborts the whole traversal
before any output is produced. -/
def parseAll : List String → Except String (List ℚ)
  | [] => .ok []
  | line :: rest =>
    match parseFloat line with
    | some v =>
      match parseAll rest with
      | .ok vs => .ok (v :: vs)
      | .error e => .error e
    | none => .error ("could not convert string to float: " ++ line)

/-- Modelled from Python's `'%g'` formatting as used by `main`: on the
integer-valued numbers produced in the scenarios verified here it prints
the plain integer digits (no trailing `.0`); a non-integral value is
rendered `num/den`, a case no verified scenario reaches. -/
def formatG (q : ℚ) : String :=
  if q.den = 1 then toString q.num
  else toString q.num ++ "/" ++ toString q.den

/-- The inputs `main` works from once argument parsing is done: the
contents of the input stream and the `--last-only` flag. -/
structure Cmdline where
  infile : String
  last_only : Bool

/-- Embedding of `main` (src/python201/algorithms.py) after argument
parsing: `values = map(float, cmdline.infile)`,
`result = cumulative_product(list(values))`,
`start = -1 if cmdline.last_only else 0`, then
`print` of the newline-joined `'%g'`-formatted `result[start:]` to the
output destination, and `return 0`.  The slice `result[-1:]` keeps the
last element (and is empty on the empty list), so it is
`drop (length - 1)`; `print` appends one newline.  A `ValueError` from
`float` propagates as `.error`. -/
def main (c : Cmdline) : Except String String :=
  match parseAll (fileLines c.infile) with
  | .error e => .error e
  | .ok values =>
    let result := cumulative_product values
    let kept := if c.last_only then result.drop (result.length - 1) else result
    .ok (String.intercalate "\n" (kept.map formatG) ++ "\n")

/-- Modelled from the Python runtime around `main`: on normal return the
output string is written and the process exit status is `main`'s return
value `0`; an uncaught exception writes no program output and the
interpreter exits with status `1`. -/
def run (c : Cmdline) : String × Nat :=
  match main c with
  | .ok out => (out, 0)
  | .error _ => ("", 1)

/-- One pass of argparse over `argv` for the parser `main` builds: `-l` /
`--last-only` sets the flag, `-o FILE` consumes its value, `-v` /
`--version` prints the version and exits 0, and every other token is a
positional.  Returns the positionals in order together with the flag. -/
def argScan : List String → List String → Bool → Except (String × Nat) (List String × Bool)
  | [], pos, lastOnly => .ok (pos.reverse, lastOnly)
  | "-l" :: rest, pos, _ => argScan rest pos true
  | "--last-only" :: rest, pos, _ => argScan rest pos true
  | "-o" :: _ :: rest, pos, lastOnly => argScan rest pos lastOnly
  | ["-o"], _, _ => .error ("argument -o/--output: expected one argument", 2)
  | "-v" :: _, _, _ => .error ("0.0.1", 0)
  | "--version" :: _, _, _ => .error ("0.0.1", 0)
  | arg :: rest, pos, lastOnly => argScan rest (arg :: pos) lastOnly

/-- Modelled from Python argparse semantics for the parser declared in
`main`: the positional `infile` is declared with `default=sys.stdin` but
without `nargs`, and argparse treats a plain positional as REQUIRED (that
`default` is only consulted under an optional `nargs`), so invoking the
program with no positional argument makes argument parsing print
`the following arguments are required: FILE` and exit with status 2
instead of falling back to standard input.  On success returns the
`infile` token and the `last_only` flag. -/
def parse_args (argv : List String) : Except (String × Nat) (String × Bool) :=
  match argScan argv [] false with
  | .error e => .error e
  | .ok ([f], lastOnly) => .ok (f, lastOnly)
  | .ok ([], _) => .error ("the following arguments are required: FILE", 2)
  | .ok (_, _) => .error ("unrecognized arguments", 2)

end Python201

namespace Python201

/-- The length of the `result` list is unchanged by folding the loop body:
each iteration only overwrites one position. -/
theorem foldl_loopBody_length (ps : List (Nat × ℚ)) :
    ∀ res : List ℚ, (ps.foldl loopBody res).length = res.length := by
  induction ps with
  | nil => intro res; rfl
  | cons p ps ih =>
    intro res
    rw [List.foldl_cons, ih]
    simp [loopBody, List.length_set]

/-- Invariant of the accumulation loop: folding the loop body over the
enumeration (from `j`) of the remaining values `t` leaves positions up to
`j` untouched, and fills position `j + 1 + k` with `res[j]` times the
product of the first `k + 1` remaining values. -/
theorem foldl_loopBody_inv :
    ∀ (t : List ℚ) (j : Nat) (res : List ℚ),
      j + 1 + t.length ≤ res.length →
      (∀ m, m ≤ j →
        ((List.enumFrom j t).foldl loopBody res).getD m 0 = res.getD m 0) ∧
      (∀ k, k < t.length →
        ((List.enumFrom j t).foldl loopBody res).getD (j + 1 + k) 0 =
          res.getD j 0 * ((t.take (k + 1)).prod)) := by
  intro t
  induction t with
  | nil =>
    intro j res _
    exact ⟨fun m _ => rfl, fun k hk => absurd hk (Nat.not_lt_zero k)⟩
  | cons v t ih =>
    intro j res hlen
    have hjlt : j + 1 < res.length := by
      simp only [List.length_cons] at hlen
      omega
    have hstep : (List.enumFrom j (v :: t)).foldl loopBody res
        = (List.enumFrom (j + 1) t).foldl loopBody (loopBody res (j, v)) := by
      rw [List.enumFrom_cons, List.foldl_cons]
    have hlen' : (j + 1) + 1 + t.length ≤ (loopBody res (j, v)).length := by
      simp only [loopBody, List.length_set]
      simp only [List.length_cons] at hlen
      omega
    obtain ⟨hA, hB⟩ := ih (j + 1) (loopBody res (j, v)) hlen'
    have hset_ne : ∀ m, m ≠ j + 1 → (loopBody res (j, v)).getD m 0 = res.getD m 0 := by
      intro m hm
      simp only [loopBody, List.getD_eq_getElem?_getD]
      rw [List.getElem?_set_ne (Ne.symm hm)]
    have hset_eq : (loopBody res (j, v)).getD (j + 1) 0 = res.getD j 0 * v := by
      simp only [loopBody, List.getD_eq_getElem?_getD]
      rw [List.getElem?_set_self hjlt]
      rfl
    constructor
    · intro m hm
      rw [hstep, hA m (Nat.le_succ_of_le hm), hset_ne m (by omega)]
    · intro k hk
      match k with
      | 0 =>
        rw [hstep]
        have h0 := hA (j + 1) (Nat.le_refl _)
        have hidx : j + 1 + 0 = j + 1 := rfl
        rw [hidx, h0, hset_eq]
        simp [List.take_succ_cons]
      | k + 1 =>
        rw [hstep]
        have hk' : k < t.length := by
          simp only [List.length_cons] at hk
          omega
        have hB' := hB k hk'
        have hidx : j + 1 + (k + 1) = (j + 1) + 1 + k := by omega
        rw [hidx, hB', hset_eq]
        rw [List.take_succ_cons, List.prod_cons, mul_assoc]

/-- Functional specification of `cumulative_product`: position `i` of the
output is the product of the input's first `i + 1` elements. -/
theorem cumulative_product_getD (a : List ℚ) (i : Nat) (h : i < a.length) :
    (cumulative_product a).getD i 0 = (a.take (i + 1)).prod := by
  cases a with
  | nil => exact absurd h (by simp)
  | cons x xs =>
    have hinv := foldl_loopBody_inv xs 0 (x :: xs) (by simp [Nat.add_comm])
    have hrw : cumulative_product (x :: xs)
        = (List.enumFrom 0 xs).foldl loopBody (x :: xs) := rfl
    match i with
    | 0 =>
      rw [hrw, hinv.1 0 (Nat.zero_le 0)]
      simp
    | k + 1 =>
      have hk : k < xs.length := by simpa using h
      have hB := hinv.2 k hk
      have hidx : (0 : Nat) + 1 + k = k + 1 := by omega
      rw [hidx] at hB
      rw [hrw, hB]
      simp [List.take_succ_cons, List.prod_cons]

/-- `cumulative_product` preserves the length of its input. -/
theorem cumulative_product_length (a : List ℚ) :
    (cumulative_product a).length = a.length :=
  foldl_loopBody_length _ a

/-- Folding the two-variable loop never touches the `array` component. -/
theorem foldl_vars (ps : List (Nat × ℚ)) :
    ∀ arr res : List ℚ,
      ps.foldl (fun st p => (st.1, loopBody st.2 p)) (arr, res)
        = (arr, ps.foldl loopBody res) := by
  induction ps with
  | nil => intro arr res; rfl
  | cons p ps ih => intro arr res; rw [List.foldl_cons, List.foldl_cons, ih]

/-- The two-variable embedding returns the untouched input together with
the result of `cumulative_product`. -/
theorem cumulative_product_vars_eq (a : List ℚ) :
    cumulative_product_vars a = (a, cumulative_product a) :=
  foldl_vars _ a a

/-- If some line fails to parse as a float, `parseAll` raises the
`ValueError` and produces no value list. -/
theorem parseAll_error_of_bad :
    ∀ ls : List String, (∃ l ∈ ls, parseFloat l = none) →
      ∃ e, parseAll ls = .error e := by
  intro ls
  induction ls with
  | nil => rintro ⟨l, hl, _⟩; cases hl
  | cons x xs ih =>
    rintro ⟨l, hl, hp⟩
    rcases List.mem_cons.mp hl with h | h
    · subst h
      exact ⟨"could not convert string to float: " ++ l, by simp [parseAll, hp]⟩
    · cases hx : parseFloat x with
      | none =>
        exact ⟨"could not convert string to float: " ++ x, by simp [parseAll, hx]⟩
      | some v =>
        obtain ⟨e, he⟩ := ih ⟨l, h, hp⟩
        exact ⟨e, by simp [parseAll, hx, he]⟩

/-- Claim C1: for every index `i < len(a)`, `cumulative_product(a)[i]` is
the product of `a[0..i]`; equivalently `r[0] = a[0]` and
`r[i] = r[i-1] * a[i]` for `1 ≤ i < len(a)`. -/
theorem claim_prefix_product_law (a : List ℚ) (i : Nat) (h : i < a.length) :
    (cumulative_product a).getD i 0 = (a.take (i + 1)).prod ∧
    (cumulative_product a).getD 0 0 = a.getD 0 0 ∧
    (0 < i → (cumulative_product a).getD i 0 =
      (cumulative_product a).getD (i - 1) 0 * a.getD i 0) := by
  refine ⟨cumulative_product_getD a i h, ?_, ?_⟩
  · have h0 : 0 < a.length := Nat.lt_of_le_of_lt (Nat.zero_le i) h
    rw [cumulative_product_getD a 0 h0]
    cases a with
    | nil => simp at h0
    | cons x xs => simp
  · intro hi
    have h1 : i - 1 < a.length := by omega
    rw [cumulative_product_getD a i h, cumulative_product_getD a (i - 1) h1]
    have hidx : i - 1 + 1 = i := by omega
    rw [hidx, List.prod_take_succ a i h]
    congr 1
    rw [List.getD_eq_getElem?_getD, List.getElem?_eq_getElem h]
    rfl

/-- Witness for claim C1, at input `[2, 3, 4]` and index `2`. -/
theorem claim_prefix_product_law_witness :
    (cumulative_product [2, 3, 4]).getD 2 0 = (([2, 3, 4] : List ℚ).take 3).prod ∧
    (cumulative_product [2, 3, 4]).getD 0 0 = ([2, 3, 4] : List ℚ).getD 0 0 ∧
    (0 < 2 → (cumulative_product [2, 3, 4]).getD 2 0 =
      (cumulative_product [2, 3, 4]).getD 1 0 * ([2, 3, 4] : List ℚ).getD 2 0) :=
  claim_prefix_product_law [2, 3, 4] 2 (by decide)

/-- Claim C2: `cumulative_product` preserves length on every input,
including the empty sequence (output empty) and single-element sequences
(output equal to input). -/
theorem claim_length_invariant :
    (∀ a : List ℚ, (cumulative_product a).length = a.length) ∧
    cumulative_product [] = [] ∧
    ∀ x : ℚ, cumulative_product [x] = [x] :=
  ⟨cumulative_product_length, rfl, fun _ => rfl⟩

/-- Claim C3: the early-exit-on-repeated-last-value bug is absent:
`cumulative_product` always yields full-length output, and on
`[2, 4, 3, 4]` it returns `[2, 8, 24, 96]`, not a truncated result. -/
theorem claim_no_early_exit :
    cumulative_product [2, 4, 3, 4] = [2, 8, 24, 96] ∧
    ∀ a : List ℚ, (cumulative_product a).length = a.length := by
  constructor
  · norm_num [cumulative_product, loopBody, List.enum, List.enumFrom, List.foldl,
      List.getD, List.set]
  · exact cumulative_product_length

/-- Claim C4: on the input stream `"1\n2\n3\n4\n5\n"` the CLI writes
exactly `"1\n2\n6\n24\n120\n"` in full mode and exactly `"120\n"` in
last-only mode, with exit status 0 in both cases. -/
theorem claim_cli_round_trip :
    main ⟨"1\n2\n3\n4\n5\n", false⟩ = .ok "1\n2\n6\n24\n120\n" ∧
    run ⟨"1\n2\n3\n4\n5\n", false⟩ = ("1\n2\n6\n24\n120\n", 0) ∧
    main ⟨"1\n2\n3\n4\n5\n", true⟩ = .ok "120\n" ∧
    run ⟨"1\n2\n3\n4\n5\n", true⟩ = ("120\n", 0) := by
  have hp : parseAll (fileLines "1\n2\n3\n4\n5\n") = .ok [1, 2, 3, 4, 5] := by rfl
  have hc : cumulative_product [1, 2, 3, 4, 5] = [1, 2, 6, 24, 120] := by
    norm_num [cumulative_product, loopBody, List.enum, List.enumFrom, List.foldl,
      List.getD, List.set]
  have hf : ([1, 2, 6, 24, 120] : List ℚ).map formatG = ["1", "2", "6", "24", "120"] := by
    norm_num [formatG]
    decide
  have hfull : main ⟨"1\n2\n3\n4\n5\n", false⟩ = .ok "1\n2\n6\n24\n120\n" := by
    simp only [main, hp, hc]
    simp only [Bool.false_eq_true, if_false, hf]
    rfl
  have hlast : main ⟨"1\n2\n3\n4\n5\n", true⟩ = .ok "120\n" := by
    simp only [main, hp, hc]
    norm_num [formatG]
    decide
  exact ⟨hfull, by simp [run, hfull], hlast, by simp [run, hlast]⟩

/-- Claim C5 (refuted on the code): the positional input-file argument is
declared with `default=sys.stdin` but without `nargs`, so argparse treats
it as required; invoking the CLI without it is rejected with
`the following arguments are required: FILE` and exit status 2, rather
than falling back to standard input. -/
theorem claim_missing_positional_rejected :
    parse_args [] = .error ("the following arguments are required: FILE", 2) := rfl

/-- Claim C6: if any input line is not parseable as a float, the parse
error propagates out of `main`, the exit status is non-zero, and no
output is written. -/
theorem claim_parse_error_failure (c : Cmdline)
    (h : ∃ l ∈ fileLines c.infile, parseFloat l = none) :
    (∃ e, main c = Except.error e) ∧ run c = ("", 1) := by
  obtain ⟨e, he⟩ := parseAll_error_of_bad (fileLines c.infile) h
  have hm : main c = .error e := by simp [main, he]
  exact ⟨⟨e, hm⟩, by simp [run, hm]⟩

/-- Witness for claim C6, at the input stream `"1\nabc\n"`. -/
theorem claim_parse_error_failure_witness :
    (∃ e, main ⟨"1\nabc\n", false⟩ = Except.error e) ∧
    run ⟨"1\nabc\n", false⟩ = ("", 1) :=
  claim_parse_error_failure ⟨"1\nabc\n", false⟩ (by decide)

/-- Claim C7: `cumulative_product` does not mutate its input: after the
body runs, the `array` variable still holds the caller's sequence, and
`result` is a separate list (initialised as a copy by `list(array)`). -/
theorem claim_no_mutation (a : List ℚ) :
    (cumulative_product_vars a).1 = a ∧
    (cumulative_product_vars a).2 = cumulative_product a := by
  rw [cumulative_product_vars_eq]
  exact ⟨rfl, rfl⟩

/-- Claim C8: if the input has a zero at position `j`, every output
position from `j` onward is zero; in particular
`cumulative_product [3, 0, 5, 2] = [3, 0, 0, 0]`. -/
theorem claim_zero_propagation :
    (∀ (a : List ℚ) (j : Nat), j < a.length → a.getD j 0 = 0 →
      ∀ i, j ≤ i → i < a.length → (cumulative_product a).getD i 0 = 0) ∧
    cumulative_product [3, 0, 5, 2] = [3, 0, 0, 0] := by
  constructor
  · intro a j hj hz i hji hi
    rw [cumulative_product_getD a i hi]
    apply List.prod_eq_zero
    have hj' : j < (a.take (i + 1)).length := by
      rw [List.length_take]
      omega
    have hjl : a[j] = 0 := by
      rw [List.getD_eq_getElem?_getD, List.getElem?_eq_getElem hj] at hz
      simpa using hz
    have h1 : (a.take (i + 1)).get ⟨j, hj'⟩ = a[j] := List.getElem_take a
    rw [← hjl, ← h1]
    exact List.get_mem _ j hj'
  · norm_num [cumulative_product, loopBody, List.enum, List.enumFrom, List.foldl,
      List.getD, List.set]

/-- Claim C9: `cumulative_product` is deterministic: it depends on nothing
but its argument, and re-running it on the caller's (untouched) sequence
yields the identical result. -/
theorem claim_deterministic (a b : List ℚ) (h : a = b) :
    cumulative_product a = cumulative_product b ∧
    cumulative_product ((cumulative_product_vars a).1) = cumulative_product a := by
  subst h
  refine ⟨rfl, ?_⟩
  rw [cumulative_product_vars_eq]

/-- Witness for claim C9, at the input `[2, 3]`. -/
theorem claim_deterministic_witness :
    cumulative_product [2, 3] = cumulative_product [2, 3] ∧
    cumulative_product ((cumulative_product_vars [2, 3]).1) = cumulative_product [2, 3] :=
  claim_deterministic [2, 3] [2, 3] rfl

/-- Claim C10: on an empty input stream, `main` writes exactly one newline
character in both full and last-only mode, and exits with status 0. -/
theorem claim_empty_input_newline :
    run ⟨"", false⟩ = ("\n", 0) ∧ run ⟨"", true⟩ = ("\n", 0) :=
  ⟨rfl, rfl⟩

end Python201
